import Mathlib

/-!
Shallow embedding of `lpsd.py`.

`lpsd(x, windowfcn, fmin, fmax, Jdes, Kdes, Kmin, fs, xi)` estimates a power
spectrum on a logarithmic frequency axis (Tröbs–Heinzel).  The source is a
line-by-line translation of the original Matlab program; its segment matrix is
built and reduced with the Matlab `bsxfun`/column conventions (the `bsxfun` calls
survive verbatim in the file), so the per-segment operations below follow the
column semantics those lines express: `mean`/`sum` applied to the `L × K`
segment matrix act column-wise, one column per segment, exactly as the
surrounding comments in the source state ("Remove the mean of each segment",
"Average the squared magnitudes").

Real (`float`) arithmetic is modelled by `ℝ`, complex arithmetic by `ℂ`,
`np.round` by round-half-to-even (`nround`), `np.floor` by `Int.floor`.
Python exceptions are modelled by `Except PyError`.
-/

noncomputable section

namespace LPSD

open Real Finset

/-- Python exception values that the validation code of `lpsd` can raise. -/
inductive PyError where
  | typeError (msg : String)
  | valueError (msg : String)
  | indexError (msg : String)
  | zeroDivisionError (msg : String)
  deriving Repr, DecidableEq

/-- Model of Python `str.format` as far as control flow is concerned: a
template whose text contains `nslots` replacement fields, applied to `nargs`
positional arguments.  When the template demands more arguments than are
supplied, `str.format` raises `IndexError: Replacement index ... out of range
for positional args tuple` instead of producing a message.  (The interpolated
numeric values themselves are irrelevant to the claims and are not modelled.) -/
def strFormat (template : String) (nslots nargs : ℕ) : Except PyError String :=
  if nslots ≤ nargs then .ok template
  else .error (.indexError ("Replacement index out of range for positional args tuple"))

/-- The inputs of `lpsd`.  `windowfcn` is modelled as the total function
`w : L ↦ (weights)`; being a Lean function it is always "callable", so the
`callable(windowfcn)` check of line 60 can never fail in the embedding.
`Jdes` is an integer (it feeds `np.arange(Jdes, dtype=int)`); `Kdes`, `Kmin`,
`fs`, `xi`, `fmin`, `fmax` are reals, as the source only ever uses them in
real arithmetic and comparisons. -/
structure LPSDInput where
  x : List ℝ
  w : ℕ → ℕ → ℝ
  fmin : ℝ
  fmax : ℝ
  Jdes : ℕ
  Kdes : ℝ
  Kmin : ℝ
  fs : ℝ
  xi : ℝ

/-- Source line 77: `N = len(x)`. -/
def N (p : LPSDInput) : ℕ := p.x.length

/-- The sanity checks of lines 60–83, in source order, as an exception-or-unit
computation.

* Lines 62–75 are the plain parameter checks.
* Line 80 evaluates `float(fs) / N` before comparing; for an empty input this
  is a Python division by zero, raised before any comparison happens.
* Line 81 builds the message for the lowest-possible-frequency ValueError by
  calling `format` on a template holding **two** replacement fields while
  `format` receives only the **one** argument `float(fs)/N` — the closing
  parenthesis of `format` sits before `fmin`, which is instead passed to
  `ValueError` as a stray second argument.
  So message construction itself raises `IndexError` and the intended
  `ValueError` is never built.
* Line 83 formats two fields with two arguments and raises the intended
  `ValueError` (keeping the literal misspelling "byt" from the source). -/
def validate (p : LPSDInput) : Except PyError Unit :=
  if ¬ (p.fmax > p.fmin) then .error (.valueError ("fmax must be greater than fmin"))
  else if ¬ (0 < p.Jdes) then .error (.valueError ("Jdes must be greater than 0"))
  else if ¬ (p.Kdes > 0) then .error (.valueError ("Kdes must be greater than 0"))
  else if ¬ (p.Kmin > 0) then .error (.valueError ("Kmin must be greater than 0"))
  else if ¬ (p.Kdes ≥ p.Kmin) then
    .error (.valueError ("Kdes must be greater than or equal to Kmin"))
  else if ¬ (p.fs > 0) then .error (.valueError ("fs must be greater than 0"))
  else if ¬ (0 ≤ p.xi ∧ p.xi < 1) then .error (.valueError ("xi must be: 0 <= xi 1"))
  else if N p = 0 then .error (.zeroDivisionError ("float division by zero"))
  else if ¬ (p.fmin ≥ p.fs / (N p : ℝ)) then
    match strFormat ("The lowest possible frequency is \x7b\x7d, but fmin=\x7b\x7d") 2 1 with
    | .error e => .error e
    | .ok msg => .error (.valueError msg)
  else if ¬ (p.fmax ≤ p.fs / 2) then
    match strFormat ("The Nyquist rate is \x7b\x7d, byt fmax=\x7b\x7d") 2 2 with
    | .error e => .error e
    | .ok msg => .error (.valueError msg)
  else .ok ()

/-- Source line 85, eq. (12): `g = log(fmax) - log(fmin)`. -/
def g (p : LPSDInput) : ℝ := Real.log p.fmax - Real.log p.fmin

/-- Source line 86, eq. (13): `f = fmin * exp(jj * g / (Jdes - 1))`. -/
def f (p : LPSDInput) (j : ℕ) : ℝ :=
  p.fmin * Real.exp ((j : ℝ) * g p / ((p.Jdes : ℝ) - 1))

/-- Source line 87, eq. (15):
`rp = fmin * exp(jj * g / (Jdes - 1)) * (exp(g / (Jdes - 1)) - 1)` —
desired resolution of each bin. -/
def rp (p : LPSDInput) (j : ℕ) : ℝ :=
  p.fmin * Real.exp ((j : ℝ) * g p / ((p.Jdes : ℝ) - 1)) *
    (Real.exp (g p / ((p.Jdes : ℝ) - 1)) - 1)

/-- Source line 93, eq. (16): `ravg = (fs / N) * (1 + (1 - xi) * (Kdes - 1))`. -/
def ravg (p : LPSDInput) : ℝ :=
  (p.fs / (N p : ℝ)) * (1 + (1 - p.xi) * (p.Kdes - 1))

/-- Source line 94, eq. (17): `rmin = (fs / N) * (1 + (1 - xi) * (Kmin - 1))`. -/
def rmin (p : LPSDInput) : ℝ :=
  (p.fs / (N p : ℝ)) * (1 + (1 - p.xi) * (p.Kmin - 1))

/-- Boolean mask `case1 = rp >= ravg` (line 96). -/
def case1 (p : LPSDInput) (j : ℕ) : Prop := rp p j ≥ ravg p

/-- Boolean mask `case2 = logical_and(rp < ravg, sqrt(ravg*rp) > rmin)`
(lines 97–100). -/
def case2 (p : LPSDInput) (j : ℕ) : Prop :=
  rp p j < ravg p ∧ Real.sqrt (ravg p * rp p j) > rmin p

/-- Boolean mask `case3 = not (case1 or case2)` (line 101). -/
def case3 (p : LPSDInput) (j : ℕ) : Prop := ¬ (case1 p j ∨ case2 p j)

/-- Lines 103–107: `rpp` is filled by three masked assignments
`rpp[case1] = rp[case1]`, `rpp[case2] = sqrt(ravg*rp[case2])`,
`rpp[case3] = rmin`.  The masks partition the index set (`case2` contains the
negation of the test of `case1`, `case3` is the complement of their union), so at
each index exactly one assignment writes, and the result equals this
conditional. -/
def rpp (p : LPSDInput) (j : ℕ) : ℝ :=
  if rp p j ≥ ravg p then rp p j
  else if Real.sqrt (ravg p * rp p j) > rmin p then Real.sqrt (ravg p * rp p j)
  else rmin p

/-- Model of `np.round`: round half to even, as numpy does — note this
differs from the Mathlib `round` (half away from zero / half up) only on
exact ties, where numpy picks the even neighbour.  `2 * round (x / 2)` is the
even integer nearest to `x`, which at a tie is the required result. -/
def nround (x : ℝ) : ℤ :=
  if Int.fract x = 1 / 2 then 2 * round (x / 2) else round x

/-- Source line 112, eq. (19): `L = np.round(fs / rpp)` — segment lengths. -/
def L (p : LPSDInput) (j : ℕ) : ℤ := nround (p.fs / rpp p j)

/-- Value `L[j]` as a real number, as it is used in subsequent arithmetic. -/
def Lr (p : LPSDInput) (j : ℕ) : ℝ := (L p j : ℝ)

/-- Source line 113, eq. (20): `r = fs / L` — actual resolution. -/
def r (p : LPSDInput) (j : ℕ) : ℝ := p.fs / Lr p j

/-- Source line 114, eq. (7): `m = f / r` — Fourier transform bin number. -/
def m (p : LPSDInput) (j : ℕ) : ℝ := f p j / r p j

/-- Source line 126, eq. (2): `D = np.round((1 - xi) * L[jj])` — hop size. -/
def D (p : LPSDInput) (j : ℕ) : ℤ := nround ((1 - p.xi) * Lr p j)

/-- Source line 127, eq. (3): `K = np.floor((N - L[jj]) / float(D) + 1)` —
number of segments. -/
def K (p : LPSDInput) (j : ℕ) : ℤ :=
  ⌊((N p : ℝ) - Lr p j) / (D p j : ℝ) + 1⌋

/-- Value `L[j]` as a natural number, for indexing the segment matrix. -/
def Lnat (p : LPSDInput) (j : ℕ) : ℕ := (L p j).toNat

/-- Value `D[j]` as a natural number, for indexing the segment matrix. -/
def Dnat (p : LPSDInput) (j : ℕ) : ℕ := (D p j).toNat

/-- Value `K[j]` as a natural number, for indexing the segment matrix. -/
def Knat (p : LPSDInput) (j : ℕ) : ℕ := (K p j).toNat

/-- Lines 130–131: `ii = bsxfun(@plus, np.arange(L[jj]).T, D * np.arange(K))`
builds the `L × K` selector matrix `ii[n, k] = n + D·k`, and `data = x[ii]`
gathers the samples, so column `k` of `data` is the `k`-th segment:
`data[n, k] = x[n + D·k]`. -/
def seg (p : LPSDInput) (j k n : ℕ) : ℝ := p.x.getD (n + Dnat p j * k) 0

/-- The mean of segment `k` (column `k` of `data`): `mean` of the segment
matrix taken column-wise, one value per segment. -/
def segMean (p : LPSDInput) (j k : ℕ) : ℝ :=
  (∑ n in range (Lnat p j), seg p j k n) / (Lnat p j : ℝ)

/-- Line 134, `data = bsxfun(@minus, data, np.mean(data))` (eq. (4)): the
column means are broadcast-subtracted, removing the mean of each segment
("Remove the mean of each segment."). -/
def detrended (p : LPSDInput) (j k n : ℕ) : ℝ := seg p j k n - segMean p j k

/-- Line 137, `window = windowfcn(L[jj])` (eq. (5)): the window coefficients
for the segment length of this frequency. -/
def window (p : LPSDInput) (j n : ℕ) : ℝ := p.w (Lnat p j) n

/-- Line 138, `sinusoid = np.exp(-2j * np.pi * np.arange(L[jj]).T * m(jj) / L(jj))`
(eq. (6)): the complex demodulation tone at the (generally non-integer) bin
`m[j]`. -/
def sinusoid (p : LPSDInput) (j n : ℕ) : ℂ :=
  Complex.exp (-2 * Complex.I * (Real.pi : ℂ) * (n : ℂ) * (m p j : ℂ) / (Lr p j : ℂ))

/-- Line 139, `data = bsxfun(@times, data, sinusoid * window)` (eqs. (5, 6)):
each column (segment) is multiplied entrywise by `sinusoid * window`. -/
def weighted (p : LPSDInput) (j k n : ℕ) : ℂ :=
  (detrended p j k n : ℂ) * (sinusoid p j n * (window p j n : ℂ))

/-- The column sums `sum(data)` of line 142: the complex sum of one weighted
segment. -/
def segSum (p : LPSDInput) (j k : ℕ) : ℂ :=
  ∑ n in range (Lnat p j), weighted p j k n

/-- Line 142, `Pxx[jj] = np.mean(np.abs(np.sum(data)) ** 2)` (eq. (8)): the
squared magnitudes of the `K` column sums, averaged over the segments
("Average the squared magnitudes"). -/
def Pxx (p : LPSDInput) (j : ℕ) : ℝ :=
  (∑ k in range (Knat p j), Complex.abs (segSum p j k) ^ 2) / (Knat p j : ℝ)

/-- Line 145, `S1[jj] = sum(window)` (eq. (23)). -/
def S1 (p : LPSDInput) (j : ℕ) : ℝ := ∑ n in range (Lnat p j), window p j n

/-- Line 146, `S2[jj] = sum(window ** 2)` (eq. (24)). -/
def S2 (p : LPSDInput) (j : ℕ) : ℝ := ∑ n in range (Lnat p j), window p j n ^ 2

/-- Line 150, `C[PS] = 2. / (S1 ** 2)` (eq. (28)). -/
def CPS (p : LPSDInput) (j : ℕ) : ℝ := 2 / S1 p j ^ 2

/-- Line 151, `C[PSD] = 2. / (fs * S2)` (eq. (29)). -/
def CPSD (p : LPSDInput) (j : ℕ) : ℝ := 2 / (p.fs * S2 p j)

/-- What line 154 actually returns: `return Pxx, f#, C` — the tuple
`(Pxx, f)` only; the trailing `, C` is commented out, so the calibration
mapping built on lines 149–152 is dropped, although the docstring
(lines 51–55) documents the return value as `Pxx, f, C`. -/
structure LPSDResult where
  Pxx : List ℝ
  f : List ℝ

/-- One iteration of the main loop (lines 126–146) at frequency index `j`,
up to its contribution `Pxx[j]`.

When `D = 0`, line 127 divides by `float(0)`: under the float semantics of
the source this does **not** raise — numpy (and Matlab) return `inf` when
`N - L > 0` and `nan` when `N - L = 0`, with only a RuntimeWarning — so `K`
becomes infinite or NaN, and building the selector indices on line 130
(`np.arange(K)`, Matlab `0:K-1`) then raises a `ValueError` (numpy:
"Maximum allowed size exceeded" for an infinite size, "cannot convert float
NaN to integer" for NaN), aborting the whole call at this iteration.

When `D ≠ 0` the iteration completes: `K = floor((N-L)/D + 1)`; for
`K[j] < 1` the selector matrix is simply empty (`np.arange` of a
non-positive count), the empty mean/sum degenerate silently (NaN plus
RuntimeWarning under floats, `0` in this exact-arithmetic model), and no
exception occurs; for `K[j] ≥ 1` (with `1 ≤ L[j] ≤ N`) every index
`n + D·k ≤ (L-1) + D·(K-1) ≤ N-1` is in range, so the gather cannot fail
either. -/
def loopStep (p : LPSDInput) (j : ℕ) : Except PyError ℝ :=
  if D p j = 0 then
    if (N p : ℝ) - Lr p j > 0 then
      .error (.valueError ("Maximum allowed size exceeded"))
    else
      .error (.valueError ("cannot convert float NaN to integer"))
  else .ok (Pxx p j)

/-- The `for jj in range(len(f))` loop of line 123: iterations run in
ascending order and the first raising iteration aborts the call. -/
def runLoop (p : LPSDInput) : List ℕ → Except PyError (List ℝ)
  | [] => .ok []
  | j :: rest =>
    match loopStep p j with
    | .error e => .error e
    | .ok v =>
      match runLoop p rest with
      | .error e => .error e
      | .ok vs => .ok (v :: vs)

/-- The whole entry point: validation (lines 60–83), then the per-frequency
loop (which aborts at the first degenerate `D = 0` bin, and otherwise
produces all the `Pxx[j]`), then `return Pxx, f#, C` (line 154). -/
def lpsd (p : LPSDInput) : Except PyError LPSDResult :=
  match validate p with
  | .error e => .error e
  | .ok _ =>
    match runLoop p (List.range p.Jdes) with
    | .error e => .error e
    | .ok pxxs => .ok ⟨pxxs, (List.range p.Jdes).map (f p)⟩

/-! ## Helper lemmas -/

/-- On a non-tie, round-half-to-even agrees with ordinary rounding. -/
lemma nround_eq_round {x : ℝ} (h : Int.fract x ≠ 1 / 2) : nround x = round x := by
  unfold nround
  exact if_neg h

/-- Rounding half to even moves its argument by at most `1/2`, in either
direction. -/
lemma nround_bounds (x : ℝ) : x - 1 / 2 ≤ (nround x : ℝ) ∧ (nround x : ℝ) ≤ x + 1 / 2 := by
  unfold nround
  split_ifs with h
  · have hx : x = (⌊x⌋ : ℝ) + 1 / 2 := by
      have h0 := Int.fract_add_floor x
      rw [h] at h0
      linarith
    rcases Int.even_or_odd ⌊x⌋ with ⟨b, hb⟩ | ⟨b, hb⟩
    · have hx2 : x / 2 = (b : ℝ) + 1 / 4 := by
        rw [hx, hb]; push_cast; ring
      have hr : round (x / 2) = b := by
        rw [round_eq, hx2]
        have hrw : (b : ℝ) + 1 / 4 + 1 / 2 = ((b : ℤ) : ℝ) + 3 / 4 := by ring
        rw [hrw, Int.floor_int_add]
        norm_num
      rw [hr, hx, hb]
      push_cast
      constructor <;> linarith
    · have hx2 : x / 2 = (b : ℝ) + 3 / 4 := by
        rw [hx, hb]; push_cast; ring
      have hr : round (x / 2) = b + 1 := by
        rw [round_eq, hx2]
        have hrw : (b : ℝ) + 3 / 4 + 1 / 2 = ((b : ℤ) : ℝ) + 5 / 4 := by ring
        rw [hrw, Int.floor_int_add]
        norm_num
      rw [hr, hx, hb]
      push_cast
      constructor <;> linarith
  · have := abs_sub_round x
    rw [abs_le] at this
    constructor <;> linarith [this.1, this.2]

set_option maxHeartbeats 1000000 in
/-- What a successful run of the sanity checks (lines 60–83) guarantees about
the inputs. -/
lemma validate_ok {p : LPSDInput} (h : validate p = .ok ()) :
    p.fmin < p.fmax ∧ 0 < p.Jdes ∧ 0 < p.Kdes ∧ 0 < p.Kmin ∧ p.Kmin ≤ p.Kdes ∧
    0 < p.fs ∧ 0 ≤ p.xi ∧ p.xi < 1 ∧ 0 < N p ∧
    p.fs / (N p : ℝ) ≤ p.fmin ∧ p.fmax ≤ p.fs / 2 := by
  unfold validate at h
  split_ifs at h with h1 h2 h3 h4 h5 h6 h7 h8 h9 h10
  all_goals try exact Except.noConfusion h
  exact ⟨h1, h2, h3, h4, h5, h6, h7.1, h7.2, Nat.pos_of_ne_zero h8, h9, h10⟩

/-- Threshold ordering: `ravg ≥ rmin` whenever `Kdes ≥ Kmin` (with `fs ≥ 0`,
`xi ≤ 1`). -/
lemma rmin_le_ravg {p : LPSDInput} (hfs : 0 ≤ p.fs) (hxi : p.xi ≤ 1)
    (hK : p.Kmin ≤ p.Kdes) : rmin p ≤ ravg p := by
  unfold rmin ravg
  have h1 : 0 ≤ p.fs / (N p : ℝ) := div_nonneg hfs (Nat.cast_nonneg _)
  apply mul_le_mul_of_nonneg_left ?_ h1
  nlinarith

/-- Positivity: `rmin > 0` for validated inputs. -/
lemma rmin_pos {p : LPSDInput} (hfs : 0 < p.fs) (hN : 0 < N p)
    (hxi0 : 0 ≤ p.xi) (hxi1 : p.xi < 1) (hKmin : 0 < p.Kmin) : 0 < rmin p := by
  unfold rmin
  have hNr : (0 : ℝ) < (N p : ℝ) := Nat.cast_pos.2 hN
  have h1 : 0 < p.fs / (N p : ℝ) := div_pos hfs hNr
  have a1 : (0 : ℝ) < 1 - p.xi := by linarith
  have a3 : (-1 : ℝ) < p.Kmin - 1 := by linarith
  have key : p.xi - 1 < (1 - p.xi) * (p.Kmin - 1) := by nlinarith
  have h2 : 0 < 1 + (1 - p.xi) * (p.Kmin - 1) := by linarith
  exact mul_pos h1 h2

/-- Whatever case fires, the reconciled resolution never drops below `rmin`. -/
lemma rmin_le_rpp {p : LPSDInput} (hfs : 0 ≤ p.fs) (hxi : p.xi ≤ 1)
    (hK : p.Kmin ≤ p.Kdes) (j : ℕ) : rmin p ≤ rpp p j := by
  unfold rpp
  split_ifs with h1 h2
  · exact le_trans (rmin_le_ravg hfs hxi hK) h1
  · exact le_of_lt h2
  · exact le_rfl

/-- The reconciled resolution is positive for validated inputs. -/
lemma rpp_pos {p : LPSDInput} (hfs : 0 < p.fs) (hN : 0 < N p)
    (hxi0 : 0 ≤ p.xi) (hxi1 : p.xi < 1) (hKmin : 0 < p.Kmin)
    (hK : p.Kmin ≤ p.Kdes) (j : ℕ) :
    0 < rpp p j :=
  lt_of_lt_of_le (rmin_pos hfs hN hxi0 hxi1 hKmin)
    (rmin_le_rpp hfs.le hxi1.le hK j)

/-- When no listed bin has a zero hop, the loop completes and yields exactly
the per-bin estimates. -/
lemma runLoop_ok_of_forall {p : LPSDInput} {l : List ℕ}
    (h : ∀ j ∈ l, D p j ≠ 0) : runLoop p l = .ok (l.map (Pxx p)) := by
  induction l with
  | nil => rfl
  | cons a t ih =>
    have ha : D p a ≠ 0 := h a (List.mem_cons_self a t)
    have ht := ih (fun j hj => h j (List.mem_cons_of_mem a hj))
    simp only [runLoop, loopStep, if_neg ha, ht, List.map_cons]

/-- Conversely, whenever the loop returns a list at all, that list is the
per-bin estimates of the listed bins. -/
lemma runLoop_ok_eq {p : LPSDInput} {l : List ℕ} {vs : List ℝ}
    (h : runLoop p l = .ok vs) : vs = l.map (Pxx p) := by
  induction l generalizing vs with
  | nil =>
    simp only [runLoop] at h
    cases h
    rfl
  | cons a t ih =>
    simp only [runLoop, loopStep] at h
    by_cases ha : D p a = 0
    · rw [if_pos ha] at h
      by_cases hs : (N p : ℝ) - Lr p a > 0
      · rw [if_pos hs] at h
        exact Except.noConfusion h
      · rw [if_neg hs] at h
        exact Except.noConfusion h
    · rw [if_neg ha] at h
      cases ht : runLoop p t with
      | error e =>
        rw [ht] at h
        exact Except.noConfusion h
      | ok vs2 =>
        rw [ht] at h
        cases h
        simp [ih ht]

/-- If any listed bin has a zero hop, the loop aborts with a `ValueError`
(raised by the selector-index construction of the first such bin reached). -/
lemma runLoop_error_of_mem {p : LPSDInput} {l : List ℕ}
    (hj : ∃ j ∈ l, D p j = 0) :
    ∃ msg, runLoop p l = .error (.valueError msg) := by
  induction l with
  | nil =>
    obtain ⟨j, hmem, -⟩ := hj
    exact absurd hmem (List.not_mem_nil j)
  | cons a t ih =>
    by_cases ha : D p a = 0
    · by_cases hs : (N p : ℝ) - Lr p a > 0
      · exact ⟨"Maximum allowed size exceeded",
          by simp only [runLoop, loopStep, if_pos ha, if_pos hs]⟩
      · exact ⟨"cannot convert float NaN to integer",
          by simp only [runLoop, loopStep, if_pos ha, if_neg hs]⟩
    · obtain ⟨j, hmem, hD⟩ := hj
      have hjt : j ∈ t := by
        rcases List.mem_cons.mp hmem with rfl | h
        · exact absurd hD ha
        · exact h
      obtain ⟨msg, hmsg⟩ := ih ⟨j, hjt, hD⟩
      exact ⟨msg, by simp only [runLoop, loopStep, if_neg ha, hmsg]⟩

/-- Evaluation rule for `nround` away from ties: if `x` lies strictly inside
`(a - 1/2, a + 1/2)` then `nround x = a`. -/
lemma nround_eq_of_lt {x : ℝ} {a : ℤ} (h1 : (a : ℝ) - 1 / 2 < x)
    (h2 : x < (a : ℝ) + 1 / 2) : nround x = a := by
  have hfr : Int.fract x ≠ 1 / 2 := by
    intro hh
    have hfl : x = (⌊x⌋ : ℝ) + 1 / 2 := by
      have h0 := Int.fract_add_floor x
      rw [hh] at h0
      linarith
    have hb1 : (a : ℝ) - 1 < (⌊x⌋ : ℝ) := by linarith
    have hb2 : (⌊x⌋ : ℝ) < (a : ℝ) := by linarith
    have hi1 : a - 1 < ⌊x⌋ := by exact_mod_cast hb1
    have hi2 : ⌊x⌋ < a := by exact_mod_cast hb2
    omega
  rw [nround_eq_round hfr, round_eq]
  refine Int.floor_eq_iff.mpr ⟨by linarith, ?_⟩
  linarith

/-! ## Concrete inputs used as witnesses and counterexamples -/

/-- A small valid input: eight zero samples at `fs = 8`, rectangular window,
`fmin = 1 = fs/N`, `fmax = 4 = fs/2`, `Jdes = 2`, `Kdes = Kmin = 1`,
`xi = 0`. -/
def pA : LPSDInput :=
  { x := List.replicate 8 0, w := fun _ _ => 1, fmin := 1, fmax := 4,
    Jdes := 2, Kdes := 1, Kmin := 1, fs := 8, xi := 0 }

lemma N_pA : N pA = 8 := by simp [N, pA]

set_option maxHeartbeats 1000000 in
lemma validate_pA : validate pA = .ok () := by
  unfold validate
  norm_num [pA, N]

lemma ravg_pA : ravg pA = 1 := by
  unfold ravg
  rw [N_pA]
  norm_num [pA]

lemma rmin_pA : rmin pA = 1 := by
  unfold rmin
  rw [N_pA]
  norm_num [pA]

lemma rp_pA_zero : rp pA 0 = 3 := by
  unfold rp g
  norm_num [pA]
  rw [Real.exp_log (by norm_num : (0 : ℝ) < 4)]
  norm_num

lemma rpp_pA_zero : rpp pA 0 = 3 := by
  unfold rpp
  rw [rp_pA_zero, ravg_pA, rmin_pA]
  norm_num

lemma L_pA_zero : L pA 0 = 3 := by
  unfold L
  rw [rpp_pA_zero]
  apply nround_eq_of_lt <;> norm_num [pA]

/-- A valid input on which the desired resolution of the last bin is so coarse that
`round(fs / rpp)` collapses to `0`: twelve zero samples at `fs = 12`,
`fmin = 1 = fs/N`, `fmax = 6 = fs/2`, `Jdes = 2`, `Kdes = Kmin = 1`,
`xi = 0`.  At `j = 1`: `rp = 30`, case 1 fires, `rpp = 30`,
`L = round(12/30) = round(0.4) = 0`. -/
def pB : LPSDInput :=
  { x := List.replicate 12 0, w := fun _ _ => 1, fmin := 1, fmax := 6,
    Jdes := 2, Kdes := 1, Kmin := 1, fs := 12, xi := 0 }

lemma N_pB : N pB = 12 := by simp [N, pB]

set_option maxHeartbeats 1000000 in
lemma validate_pB : validate pB = .ok () := by
  unfold validate
  norm_num [pB, N]

lemma ravg_pB : ravg pB = 1 := by
  unfold ravg
  rw [N_pB]
  norm_num [pB]

lemma rmin_pB : rmin pB = 1 := by
  unfold rmin
  rw [N_pB]
  norm_num [pB]

lemma rp_pB_one : rp pB 1 = 30 := by
  unfold rp g
  norm_num [pB]
  rw [Real.exp_log (by norm_num : (0 : ℝ) < 6)]
  norm_num

lemma rpp_pB_one : rpp pB 1 = 30 := by
  unfold rpp
  rw [rp_pB_one, ravg_pB, rmin_pB]
  norm_num

lemma L_pB_one : L pB 1 = 0 := by
  unfold L
  rw [rpp_pB_one]
  apply nround_eq_of_lt <;> norm_num [pB]

lemma D_pB_one : D pB 1 = 0 := by
  unfold D Lr
  rw [L_pB_one]
  apply nround_eq_of_lt <;> norm_num [pB]

lemma sqrt_le_half {x : ℝ} (h : x ≤ 1 / 4) : Real.sqrt x ≤ 1 / 2 := by
  have h2 : Real.sqrt x ≤ Real.sqrt (1 / 4) := Real.sqrt_le_sqrt h
  have h3 : Real.sqrt (1 / 4) = 1 / 2 := by
    rw [show (1 / 4 : ℝ) = (1 / 2) ^ 2 by norm_num,
      Real.sqrt_sq (by norm_num : (0 : ℝ) ≤ 1 / 2)]
  linarith

lemma rp_pA_one : rp pA 1 = 12 := by
  unfold rp g
  norm_num [pA]
  rw [Real.exp_log (by norm_num : (0 : ℝ) < 4)]
  norm_num

lemma rpp_pA_one : rpp pA 1 = 12 := by
  unfold rpp
  rw [rp_pA_one, ravg_pA, rmin_pA]
  norm_num

lemma L_pA_one : L pA 1 = 1 := by
  unfold L
  rw [rpp_pA_one]
  apply nround_eq_of_lt <;> norm_num [pA]

lemma D_pA_zero : D pA 0 = 3 := by
  unfold D Lr
  rw [L_pA_zero]
  apply nround_eq_of_lt <;> norm_num [pA]

lemma D_pA_one : D pA 1 = 1 := by
  unfold D Lr
  rw [L_pA_one]
  apply nround_eq_of_lt <;> norm_num [pA]

/-- At `pA` both bins have a positive hop, so the loop completes and the call
returns the pair of vectors. -/
lemma lpsd_pA : lpsd pA =
    .ok ⟨(List.range pA.Jdes).map (Pxx pA), (List.range pA.Jdes).map (f pA)⟩ := by
  have hrl : runLoop pA (List.range pA.Jdes) =
      .ok ((List.range pA.Jdes).map (Pxx pA)) := by
    apply runLoop_ok_of_forall
    intro j hj
    have hj2 : j < 2 := by simpa [pA] using List.mem_range.mp hj
    interval_cases j
    · rw [D_pA_zero]; norm_num
    · rw [D_pA_one]; norm_num
  unfold lpsd
  rw [validate_pA, hrl]

/-- A valid input whose two bins both land in case 3 with a reconciled
resolution so fine that `L[j] = 16` exceeds `N = 8`: eight zero samples at
`fs = 8`, `fmin = 1 = fs/N`, `fmax = 5/4 ≤ fs/2`, `Jdes = 2`,
`Kdes = Kmin = 1/2` (the validation only demands positivity, not
integrality), `xi = 0`.  Then `D[0] = 16 ≥ 1` but
`K[0] = floor((8-16)/16 + 1) = floor(1/2) = 0 < 1`: the segment matrix is
empty and the loop proceeds silently. -/
def pE : LPSDInput :=
  { x := List.replicate 8 0, w := fun _ _ => 1, fmin := 1, fmax := 5 / 4,
    Jdes := 2, Kdes := 1 / 2, Kmin := 1 / 2, fs := 8, xi := 0 }

lemma N_pE : N pE = 8 := by simp [N, pE]

set_option maxHeartbeats 1000000 in
lemma validate_pE : validate pE = .ok () := by
  unfold validate
  norm_num [pE, N]

lemma ravg_pE : ravg pE = 1 / 2 := by
  unfold ravg
  rw [N_pE]
  norm_num [pE]

lemma rmin_pE : rmin pE = 1 / 2 := by
  unfold rmin
  rw [N_pE]
  norm_num [pE]

lemma rp_pE_zero : rp pE 0 = 1 / 4 := by
  unfold rp g
  norm_num [pE]
  rw [Real.exp_log (by norm_num : (0 : ℝ) < 5 / 4)]
  norm_num

lemma rp_pE_one : rp pE 1 = 5 / 16 := by
  unfold rp g
  norm_num [pE]
  rw [Real.exp_log (by norm_num : (0 : ℝ) < 5 / 4)]
  norm_num

lemma rpp_pE_zero : rpp pE 0 = 1 / 2 := by
  unfold rpp
  rw [rp_pE_zero, ravg_pE, rmin_pE]
  rw [if_neg (by norm_num), if_neg ?_]
  exact not_lt.mpr (sqrt_le_half (by norm_num))

lemma rpp_pE_one : rpp pE 1 = 1 / 2 := by
  unfold rpp
  rw [rp_pE_one, ravg_pE, rmin_pE]
  rw [if_neg (by norm_num), if_neg ?_]
  exact not_lt.mpr (sqrt_le_half (by norm_num))

lemma L_pE_zero : L pE 0 = 16 := by
  unfold L
  rw [rpp_pE_zero]
  apply nround_eq_of_lt <;> norm_num [pE]

lemma L_pE_one : L pE 1 = 16 := by
  unfold L
  rw [rpp_pE_one]
  apply nround_eq_of_lt <;> norm_num [pE]

lemma D_pE_zero : D pE 0 = 16 := by
  unfold D Lr
  rw [L_pE_zero]
  apply nround_eq_of_lt <;> norm_num [pE]

lemma D_pE_one : D pE 1 = 16 := by
  unfold D Lr
  rw [L_pE_one]
  apply nround_eq_of_lt <;> norm_num [pE]

lemma K_pE_zero : K pE 0 = 0 := by
  unfold K Lr
  rw [N_pE, L_pE_zero, D_pE_zero]
  norm_num

lemma Knat_pE_zero : Knat pE 0 = 0 := by
  unfold Knat
  rw [K_pE_zero]
  rfl

/-- With `K[0] = 0` the average on line 142 runs over an empty segment set:
under the source float semantics it is NaN (with a RuntimeWarning, no
exception); in this exact-arithmetic model, which has no NaN, the empty
average is `0`.  Either way the value is degenerate and produced silently. -/
lemma Pxx_pE_zero : Pxx pE 0 = 0 := by
  unfold Pxx
  rw [Knat_pE_zero]
  simp

/-- Both bins of `pE` have `D = 16 ≠ 0`, so the loop completes and the call
returns normally. -/
lemma lpsd_pE : lpsd pE =
    .ok ⟨(List.range pE.Jdes).map (Pxx pE), (List.range pE.Jdes).map (f pE)⟩ := by
  have hrl : runLoop pE (List.range pE.Jdes) =
      .ok ((List.range pE.Jdes).map (Pxx pE)) := by
    apply runLoop_ok_of_forall
    intro j hj
    have hj2 : j < 2 := by simpa [pE] using List.mem_range.mp hj
    interval_cases j
    · rw [D_pE_zero]; norm_num
    · rw [D_pE_one]; norm_num
  unfold lpsd
  rw [validate_pE, hrl]

/-- An input that fails only the lowest-representable-frequency check: ten
zero samples at `fs = 10` (so `fs/N = 1`) with `fmin = 1/2 < 1`. -/
def pC : LPSDInput :=
  { x := List.replicate 10 0, w := fun _ _ => 1, fmin := 1 / 2, fmax := 5,
    Jdes := 2, Kdes := 1, Kmin := 1, fs := 10, xi := 0 }

lemma Lnat_pA_zero : Lnat pA 0 = 3 := by
  unfold Lnat
  rw [L_pA_zero]
  rfl

lemma S1_pA_zero : S1 pA 0 = 3 := by
  unfold S1 window
  rw [Lnat_pA_zero]
  simp [pA]

lemma S2_pA_zero : S2 pA 0 = 3 := by
  unfold S2 window
  rw [Lnat_pA_zero]
  simp [pA]

/-! ## Claims -/

/-- C1: for every input and every frequency index `j`, the uncalibrated
estimate `Pxx[j]` is the mean over the `K[j]` segments of the squared
magnitude of the per-segment complex sum
`Σ_n window[n] · exp(-2πi·n·m[j]/L[j]) · (detrended segment k)[n]`; the only
division is the final averaging by `K[j]`. -/
theorem pxx_is_mean_of_squared_segment_sums (p : LPSDInput) (j : ℕ) :
    Pxx p j = (1 / (Knat p j : ℝ)) *
      ∑ k in range (Knat p j),
        Complex.abs (∑ n in range (Lnat p j),
          (window p j n : ℂ) *
            Complex.exp (-2 * (Real.pi : ℂ) * Complex.I * (n : ℂ) * (m p j : ℂ) / (Lr p j : ℂ)) *
            (detrended p j k n : ℂ)) ^ 2 := by
  have hexp : ∀ n : ℕ,
      Complex.exp (-2 * Complex.I * (Real.pi : ℂ) * (n : ℂ) * (m p j : ℂ) / (Lr p j : ℂ)) =
      Complex.exp (-2 * (Real.pi : ℂ) * Complex.I * (n : ℂ) * (m p j : ℂ) / (Lr p j : ℂ)) := by
    intro n
    congr 1
    ring
  unfold Pxx segSum weighted sinusoid
  rw [one_div, inv_mul_eq_div]
  congr 1
  refine Finset.sum_congr rfl fun k _ => ?_
  congr 2
  refine Finset.sum_congr rfl fun n _ => ?_
  rw [hexp n]
  ring

/-- C3: for every valid input and index `j`, exactly one of the three
resolution-reconciliation cases applies — (1) `rp[j] ≥ ravg` gives
`rpp[j] = rp[j]`; (2) else `sqrt(ravg·rp[j]) > rmin` gives
`rpp[j] = sqrt(ravg·rp[j])`; (3) otherwise `rpp[j] = rmin` — and in every
case `rpp[j] ≥ rmin`. -/
theorem resolution_reconciliation_cases (p : LPSDInput) (j : ℕ)
    (hv : validate p = .ok ()) :
    (case1 p j ∨ case2 p j ∨ case3 p j) ∧
    ¬ (case1 p j ∧ case2 p j) ∧ ¬ (case1 p j ∧ case3 p j) ∧
    ¬ (case2 p j ∧ case3 p j) ∧
    (case1 p j → rpp p j = rp p j) ∧
    (case2 p j → rpp p j = Real.sqrt (ravg p * rp p j)) ∧
    (case3 p j → rpp p j = rmin p) ∧
    rmin p ≤ rpp p j := by
  obtain ⟨-, -, -, -, hK, hfs, -, hxi1, -, -, -⟩ := validate_ok hv
  refine ⟨?_, ?_, ?_, ?_, ?_, ?_, ?_, rmin_le_rpp hfs.le hxi1.le hK j⟩
  · by_cases h1 : case1 p j
    · exact Or.inl h1
    · by_cases h2 : case2 p j
      · exact Or.inr (Or.inl h2)
      · exact Or.inr (Or.inr (by unfold case3; tauto))
  · rintro ⟨h1, h2⟩
    unfold case1 at h1
    unfold case2 at h2
    linarith [h2.1]
  · rintro ⟨h1, h3⟩
    exact h3 (Or.inl h1)
  · rintro ⟨h2, h3⟩
    exact h3 (Or.inr h2)
  · intro h1
    unfold case1 at h1
    unfold rpp
    rw [if_pos h1]
  · rintro ⟨hlt, hsq⟩
    unfold rpp
    rw [if_neg (not_le.mpr hlt), if_pos hsq]
  · intro h3
    unfold case3 case1 case2 at h3
    push_neg at h3
    obtain ⟨h1, h2⟩ := h3
    unfold rpp
    rw [if_neg (not_le.mpr h1), if_neg (not_lt.mpr (h2 h1))]

/-- Witness for C3 at the concrete valid input `pA`, `j = 0`. -/
theorem resolution_reconciliation_cases_witness :
    validate pA = .ok () ∧
    ((case1 pA 0 ∨ case2 pA 0 ∨ case3 pA 0) ∧
    ¬ (case1 pA 0 ∧ case2 pA 0) ∧ ¬ (case1 pA 0 ∧ case3 pA 0) ∧
    ¬ (case2 pA 0 ∧ case3 pA 0) ∧
    (case1 pA 0 → rpp pA 0 = rp pA 0) ∧
    (case2 pA 0 → rpp pA 0 = Real.sqrt (ravg pA * rp pA 0)) ∧
    (case3 pA 0 → rpp pA 0 = rmin pA) ∧
    rmin pA ≤ rpp pA 0) :=
  ⟨validate_pA, resolution_reconciliation_cases pA 0 validate_pA⟩

/-- C4, counterexample: `pB` passes every validation check, yet at the last
frequency index the segment length `L[1] = round(fs / rpp[1]) = round(0.4)`
is `0`, violating the claimed invariant `1 ≤ L[j]`. -/
theorem segment_length_lower_bound_cex :
    validate pB = .ok () ∧ 1 < pB.Jdes ∧ L pB 1 = 0 ∧ ¬ (1 ≤ L pB 1) :=
  ⟨validate_pB, by norm_num [pB], L_pB_one, by rw [L_pB_one]; norm_num⟩

/-- C4, amended: for every valid input with `Kmin ≥ 1` (a count of averages)
and every `j`, the segment length `L[j] = round(fs / rpp[j])` satisfies
`L[j] ≤ N`; the lower bound `1 ≤ L[j]` holds only when `rpp[j] < 2·fs`
(equivalently `fs / rpp[j] > 1/2`), and can fail otherwise, since `round` can
yield `0`. -/
theorem segment_length_bounds_amended (p : LPSDInput) (j : ℕ)
    (hv : validate p = .ok ()) (hKmin1 : 1 ≤ p.Kmin) :
    L p j ≤ (N p : ℤ) ∧ (rpp p j < 2 * p.fs → 1 ≤ L p j) := by
  obtain ⟨-, -, -, hKmin0, hK, hfs, hxi0, hxi1, hN, -, -⟩ := validate_ok hv
  have hNr : (0 : ℝ) < (N p : ℝ) := Nat.cast_pos.2 hN
  have hfsN_pos : 0 < p.fs / (N p : ℝ) := div_pos hfs hNr
  have hrmin_ge : p.fs / (N p : ℝ) ≤ rmin p := by
    unfold rmin
    have hc : (1 : ℝ) ≤ 1 + (1 - p.xi) * (p.Kmin - 1) := by nlinarith
    exact le_mul_of_one_le_right hfsN_pos.le hc
  have hrpp_ge : p.fs / (N p : ℝ) ≤ rpp p j :=
    le_trans hrmin_ge (rmin_le_rpp hfs.le hxi1.le hK j)
  have hrpp_pos : 0 < rpp p j := lt_of_lt_of_le hfsN_pos hrpp_ge
  have hb := nround_bounds (p.fs / rpp p j)
  have hdiv : p.fs / rpp p j ≤ (N p : ℝ) := by
    rw [div_le_iff₀ hrpp_pos]
    have h2 := (div_le_iff₀ hNr).mp hrpp_ge
    linarith
  constructor
  · have hlt : ((L p j : ℤ) : ℝ) < ((N p : ℤ) : ℝ) + 1 := by
      unfold L
      push_cast
      linarith [hb.2]
    have : L p j < (N p : ℤ) + 1 := by exact_mod_cast hlt
    omega
  · intro hlt2
    have hhalf : (1 : ℝ) / 2 < p.fs / rpp p j := by
      rw [lt_div_iff₀ hrpp_pos]
      linarith
    have hpos : (0 : ℝ) < ((L p j : ℤ) : ℝ) := by
      unfold L
      linarith [hb.1]
    have : 0 < L p j := by exact_mod_cast hpos
    omega

/-- Witness for the amended C4 at the concrete valid input `pA`, `j = 0`. -/
theorem segment_length_bounds_amended_witness :
    validate pA = .ok () ∧ 1 ≤ pA.Kmin ∧
    (L pA 0 ≤ (N pA : ℤ) ∧ (rpp pA 0 < 2 * pA.fs → 1 ≤ L pA 0)) :=
  ⟨validate_pA, le_refl 1, segment_length_bounds_amended pA 0 validate_pA (le_refl 1)⟩

/-- C5, counterexample: `pE` passes every validation check and has a bin with
`K[0] = 0 < 1` (while `D[0] = 16 ≥ 1`), yet the call does not fail at all: the
loop completes — the empty segment set only triggers a numpy RuntimeWarning,
never an exception — and the call returns `.ok` with the silently degenerate
`Pxx[0]` (NaN under IEEE float semantics; `0` in this exact-arithmetic
model, which has no NaN).  No `DegenerateSegmentation` error exists anywhere
in the source. -/
theorem degenerate_segmentation_not_raised :
    validate pE = .ok () ∧ 1 ≤ D pE 0 ∧ K pE 0 < 1 ∧
    lpsd pE = .ok ⟨(List.range pE.Jdes).map (Pxx pE),
      (List.range pE.Jdes).map (f pE)⟩ ∧
    Pxx pE 0 = 0 := by
  refine ⟨validate_pE, ?_, ?_, lpsd_pE, Pxx_pE_zero⟩
  · rw [D_pE_zero]
    norm_num
  · rw [K_pE_zero]
    norm_num

/-- C5, amended: the main loop has no degenerate-segmentation guard.  When a
bin has hop `D[j] = 0` (e.g. whenever `L[j] = 0`, as at the C4 input `pB`)
the call does abort inside the main loop, but with an incidental `ValueError`
raised while the selector indices are built from the infinite (or NaN) `K`
produced by `(N - L)/float(0)` — an error about array sizes that does not
identify the degenerate-segmentation condition; and when `D[j] ≥ 1` but
`K[j] < 1` the call does not fail at all (see the counterexample). -/
theorem no_degenerate_segmentation_guard (p : LPSDInput) (j : ℕ)
    (hv : validate p = .ok ()) (hj : j < p.Jdes) (hD : D p j = 0) :
    ∃ msg, lpsd p = .error (.valueError msg) := by
  obtain ⟨msg, hmsg⟩ :=
    runLoop_error_of_mem (p := p) ⟨j, List.mem_range.mpr hj, hD⟩
  refine ⟨msg, ?_⟩
  unfold lpsd
  rw [hv, hmsg]

/-- Witness for the amended C5 at the concrete input `pB`, whose bin `j = 1`
has `L[1] = 0`, hence `D[1] = 0`. -/
theorem no_degenerate_segmentation_guard_witness :
    validate pB = .ok () ∧ 1 < pB.Jdes ∧ D pB 1 = 0 ∧
    ∃ msg, lpsd pB = .error (.valueError msg) :=
  ⟨validate_pB, by norm_num [pB], D_pB_one,
    no_degenerate_segmentation_guard pB 1 validate_pB (by norm_num [pB]) D_pB_one⟩

/-- C6: on an input whose only defect is `fmin < fs/N`, the message construction of
line 81 itself fails — `str.format` gets one argument for two
replacement fields (the second argument `fmin` is misplaced outside the
`format` call) — so the call raises `IndexError`, not the descriptive
`ValueError` the spec requires. -/
theorem fmin_check_raises_index_error :
    pC.fmin < pC.fs / (N pC : ℝ) ∧
    validate pC =
      .error (.indexError ("Replacement index out of range for positional args tuple")) := by
  constructor
  · norm_num [pC, N]
  · unfold validate
    norm_num [pC, N, strFormat]

/-- C7: at the valid input `pA` the entry point returns only the pair
`(Pxx, f)` — the result type carries no calibration mapping, matching
line 154 `return Pxx, f#, C` where `, C` is commented out — even though the
calibration factors are computed internally (here `C[PS][0] = 2/9` and
`C[PSD][0] = 1/12`, both positive). -/
theorem lpsd_returns_only_pxx_and_f :
    lpsd pA = .ok ⟨(List.range pA.Jdes).map (Pxx pA),
      (List.range pA.Jdes).map (f pA)⟩ ∧
    CPS pA 0 = 2 / 9 ∧ CPSD pA 0 = 1 / 12 := by
  refine ⟨lpsd_pA, ?_, ?_⟩
  · unfold CPS
    rw [S1_pA_zero]
    norm_num
  · unfold CPSD
    rw [S2_pA_zero]
    norm_num [pA]

/-- C2: detrending subtracts from each of the `K[j]` segments the own mean of
that segment — entry `n` of detrended segment `k` is
`x[k·D + n] − (1/L[j]) Σ_{n2} x[k·D + n2]`, not anything involving the other
segments. -/
theorem detrend_subtracts_own_segment_mean (p : LPSDInput) (j k n : ℕ) :
    detrended p j k n = p.x.getD (k * Dnat p j + n) 0 -
      (∑ n2 in range (Lnat p j), p.x.getD (k * Dnat p j + n2) 0) / (Lnat p j : ℝ) := by
  have hidx : ∀ n2 : ℕ, n2 + Dnat p j * k = k * Dnat p j + n2 := fun n2 => by ring
  unfold detrended segMean
  simp only [seg, hidx]

/-- C8: for every valid input with `Jdes ≥ 2` the returned vectors `f` and
`Pxx` both have length `Jdes`, `f` is strictly increasing with
`f[j] = fmin · exp(j·g/(Jdes−1))` for `g = ln fmax − ln fmin`, `f[0] = fmin`
and `f[Jdes−1] = fmax`. -/
theorem frequency_grid_correct (p : LPSDInput) (res : LPSDResult)
    (hv : validate p = .ok ()) (hJ : 2 ≤ p.Jdes)
    (hres : lpsd p = .ok res) :
    res.Pxx = (List.range p.Jdes).map (Pxx p) ∧
    res.f = (List.range p.Jdes).map (f p) ∧
    res.f.length = p.Jdes ∧ res.Pxx.length = p.Jdes ∧
    (∀ i j2 : ℕ, i < j2 → j2 < p.Jdes → f p i < f p j2) ∧
    f p 0 = p.fmin ∧ f p (p.Jdes - 1) = p.fmax ∧
    (∀ j2 : ℕ, f p j2 =
      p.fmin * Real.exp ((j2 : ℝ) * (Real.log p.fmax - Real.log p.fmin) /
        ((p.Jdes : ℝ) - 1))) := by
  obtain ⟨hfm, -, -, -, -, hfs, -, -, hN, hfsN, -⟩ := validate_ok hv
  have hNr : (0 : ℝ) < (N p : ℝ) := Nat.cast_pos.2 hN
  have hfmin0 : 0 < p.fmin := lt_of_lt_of_le (div_pos hfs hNr) hfsN
  have hfmax0 : 0 < p.fmax := lt_trans hfmin0 hfm
  have hg : 0 < g p := sub_pos.mpr (Real.log_lt_log hfmin0 hfm)
  have hJ1 : (0 : ℝ) < (p.Jdes : ℝ) - 1 := by
    have : (2 : ℝ) ≤ (p.Jdes : ℝ) := by exact_mod_cast hJ
    linarith
  obtain ⟨pxxs, hq⟩ : ∃ pxxs, runLoop p (List.range p.Jdes) = .ok pxxs := by
    cases hq2 : runLoop p (List.range p.Jdes) with
    | error e =>
      exfalso
      unfold lpsd at hres
      rw [hv, hq2] at hres
      exact Except.noConfusion hres
    | ok pxxs => exact ⟨pxxs, rfl⟩
  have hres2 : res = ⟨pxxs, (List.range p.Jdes).map (f p)⟩ := by
    unfold lpsd at hres
    rw [hv, hq] at hres
    exact (Except.ok.inj hres).symm
  have hpxxs : pxxs = (List.range p.Jdes).map (Pxx p) := runLoop_ok_eq hq
  subst hres2
  refine ⟨hpxxs, rfl, by simp, by simp [hpxxs], ?_, ?_, ?_, fun j2 => rfl⟩
  · intro i j2 hij hj2
    unfold f
    have hdiv : (i : ℝ) * g p / ((p.Jdes : ℝ) - 1) <
        (j2 : ℝ) * g p / ((p.Jdes : ℝ) - 1) := by
      have hic : (i : ℝ) < (j2 : ℝ) := by exact_mod_cast hij
      gcongr
    exact mul_lt_mul_of_pos_left (Real.exp_lt_exp.mpr hdiv) hfmin0
  · unfold f
    simp
  · unfold f
    have hcast : ((p.Jdes - 1 : ℕ) : ℝ) = (p.Jdes : ℝ) - 1 := by
      have h1 : 1 ≤ p.Jdes := by omega
      push_cast [h1]
      ring
    rw [hcast, mul_div_cancel_left₀ _ (ne_of_gt hJ1)]
    unfold g
    rw [Real.exp_sub, Real.exp_log hfmax0, Real.exp_log hfmin0]
    have hne : p.fmin ≠ 0 := ne_of_gt hfmin0
    field_simp

/-- Witness for C8 at the concrete valid input `pA` (which has `Jdes = 2` and
whose call does return). -/
theorem frequency_grid_correct_witness :
    validate pA = .ok () ∧ 2 ≤ pA.Jdes ∧
    lpsd pA = .ok ⟨(List.range pA.Jdes).map (Pxx pA),
      (List.range pA.Jdes).map (f pA)⟩ ∧
    ((⟨(List.range pA.Jdes).map (Pxx pA),
        (List.range pA.Jdes).map (f pA)⟩ : LPSDResult).Pxx =
      (List.range pA.Jdes).map (Pxx pA) ∧
    (⟨(List.range pA.Jdes).map (Pxx pA),
        (List.range pA.Jdes).map (f pA)⟩ : LPSDResult).f =
      (List.range pA.Jdes).map (f pA) ∧
    (⟨(List.range pA.Jdes).map (Pxx pA),
        (List.range pA.Jdes).map (f pA)⟩ : LPSDResult).f.length = pA.Jdes ∧
    (⟨(List.range pA.Jdes).map (Pxx pA),
        (List.range pA.Jdes).map (f pA)⟩ : LPSDResult).Pxx.length = pA.Jdes ∧
    (∀ i j2 : ℕ, i < j2 → j2 < pA.Jdes → f pA i < f pA j2) ∧
    f pA 0 = pA.fmin ∧ f pA (pA.Jdes - 1) = pA.fmax ∧
    (∀ j2 : ℕ, f pA j2 =
      pA.fmin * Real.exp ((j2 : ℝ) * (Real.log pA.fmax - Real.log pA.fmin) /
        ((pA.Jdes : ℝ) - 1)))) :=
  ⟨validate_pA, le_refl 2, lpsd_pA,
    frequency_grid_correct pA
      ⟨(List.range pA.Jdes).map (Pxx pA), (List.range pA.Jdes).map (f pA)⟩
      validate_pA (le_refl 2) lpsd_pA⟩

/-- C9: the calibration factors are `C[PS][j] = 2/S1[j]²` and
`C[PSD][j] = 2/(fs·S2[j])` with `S1` the window sum and `S2` the sum of its
squares; for an all-ones (rectangular) window both sums equal `L[j]`, giving
`C[PS][j] = 2/L[j]²` and `C[PSD][j] = 2/(fs·L[j])`. -/
theorem calibration_factors (p : LPSDInput) (j : ℕ)
    (hw : ∀ Lv n : ℕ, n < Lv → p.w Lv n = 1) :
    CPS p j = 2 / S1 p j ^ 2 ∧ CPSD p j = 2 / (p.fs * S2 p j) ∧
    S1 p j = (Lnat p j : ℝ) ∧ S2 p j = (Lnat p j : ℝ) ∧
    CPS p j = 2 / (Lnat p j : ℝ) ^ 2 ∧
    CPSD p j = 2 / (p.fs * (Lnat p j : ℝ)) := by
  have h1 : S1 p j = (Lnat p j : ℝ) := by
    unfold S1 window
    rw [Finset.sum_congr rfl (fun n hn => hw _ n (Finset.mem_range.mp hn))]
    simp
  have h2 : S2 p j = (Lnat p j : ℝ) := by
    unfold S2 window
    rw [Finset.sum_congr rfl
      (fun n hn => by rw [hw _ n (Finset.mem_range.mp hn)])]
    simp
  refine ⟨rfl, rfl, h1, h2, ?_, ?_⟩
  · unfold CPS
    rw [h1]
  · unfold CPSD
    rw [h2]

/-- Witness for C9 at the concrete input `pA`, whose window is all-ones. -/
theorem calibration_factors_witness :
    (∀ Lv n : ℕ, n < Lv → pA.w Lv n = 1) ∧
    (CPS pA 0 = 2 / S1 pA 0 ^ 2 ∧ CPSD pA 0 = 2 / (pA.fs * S2 pA 0) ∧
    S1 pA 0 = (Lnat pA 0 : ℝ) ∧ S2 pA 0 = (Lnat pA 0 : ℝ) ∧
    CPS pA 0 = 2 / (Lnat pA 0 : ℝ) ^ 2 ∧
    CPSD pA 0 = 2 / (pA.fs * (Lnat pA 0 : ℝ))) :=
  ⟨fun _ _ _ => rfl, calibration_factors pA 0 (fun _ _ _ => rfl)⟩

/-- C10: for inputs passing validation the two thresholds satisfy
`ravg ≥ rmin`, with equality exactly when `Kdes = Kmin`, and whenever case 2
applies the geometric mean `sqrt(ravg·rp[j])` lies between `rp[j]` and
`ravg`. -/
theorem ravg_rmin_order_and_geometric_mean (p : LPSDInput)
    (hN : 0 < N p) (hfs : 0 < p.fs) (hxi0 : 0 ≤ p.xi) (hxi1 : p.xi < 1)
    (hKmin : 0 < p.Kmin) (hK : p.Kmin ≤ p.Kdes) :
    rmin p ≤ ravg p ∧ (ravg p = rmin p ↔ p.Kdes = p.Kmin) ∧
    ∀ j, case2 p j →
      rp p j ≤ Real.sqrt (ravg p * rp p j) ∧
      Real.sqrt (ravg p * rp p j) ≤ ravg p := by
  have hNr : (0 : ℝ) < (N p : ℝ) := Nat.cast_pos.2 hN
  have hcoef : 0 < p.fs / (N p : ℝ) * (1 - p.xi) :=
    mul_pos (div_pos hfs hNr) (by linarith)
  have hle : rmin p ≤ ravg p := rmin_le_ravg hfs.le hxi1.le hK
  refine ⟨hle, ⟨?_, ?_⟩, ?_⟩
  · intro he
    have hz : p.fs / (N p : ℝ) * (1 - p.xi) * (p.Kdes - p.Kmin) = 0 := by
      unfold ravg rmin at he
      linear_combination he
    rcases mul_eq_zero.mp hz with hz1 | hz2
    · exact absurd hz1 (ne_of_gt hcoef)
    · linarith
  · intro he
    unfold ravg rmin
    rw [he]
  · intro j hc2
    obtain ⟨hlt, hsq⟩ := hc2
    have hrmin_pos : 0 < rmin p := rmin_pos hfs hN hxi0 hxi1 hKmin
    have hsqrt_pos : 0 < Real.sqrt (ravg p * rp p j) := lt_trans hrmin_pos hsq
    have hprod_pos : 0 < ravg p * rp p j := by
      by_contra hnp
      push_neg at hnp
      rw [Real.sqrt_eq_zero_of_nonpos hnp] at hsqrt_pos
      exact lt_irrefl 0 hsqrt_pos
    have hravg_pos : 0 < ravg p := lt_of_lt_of_le hrmin_pos hle
    have hrp_pos : 0 < rp p j := by nlinarith
    constructor
    · have hmm : rp p j * rp p j ≤ ravg p * rp p j :=
        mul_le_mul_of_nonneg_right hlt.le hrp_pos.le
      calc rp p j = Real.sqrt (rp p j * rp p j) :=
            (Real.sqrt_mul_self hrp_pos.le).symm
        _ ≤ Real.sqrt (ravg p * rp p j) := Real.sqrt_le_sqrt hmm
    · have hmm : ravg p * rp p j ≤ ravg p * ravg p :=
        mul_le_mul_of_nonneg_left hlt.le hravg_pos.le
      calc Real.sqrt (ravg p * rp p j) ≤ Real.sqrt (ravg p * ravg p) :=
            Real.sqrt_le_sqrt hmm
        _ = ravg p := Real.sqrt_mul_self hravg_pos.le

/-- Witness for C10 at the concrete input `pA`. -/
theorem ravg_rmin_order_and_geometric_mean_witness :
    0 < N pA ∧ 0 < pA.fs ∧ 0 ≤ pA.xi ∧ pA.xi < 1 ∧
    0 < pA.Kmin ∧ pA.Kmin ≤ pA.Kdes ∧
    (rmin pA ≤ ravg pA ∧ (ravg pA = rmin pA ↔ pA.Kdes = pA.Kmin) ∧
    ∀ j, case2 pA j →
      rp pA j ≤ Real.sqrt (ravg pA * rp pA j) ∧
      Real.sqrt (ravg pA * rp pA j) ≤ ravg pA) :=
  ⟨by simp [N, pA], by norm_num [pA], by norm_num [pA], by norm_num [pA],
   by norm_num [pA], by norm_num [pA],
   ravg_rmin_order_and_geometric_mean pA (by simp [N, pA]) (by norm_num [pA])
     (by norm_num [pA]) (by norm_num [pA]) (by norm_num [pA]) (by norm_num [pA])⟩

end LPSD
